import Mathlib

/-!
Shallow embedding of the Steam server transport of `renet_steam/src/server.rs`
(the server-side transport adapter between the `renet` game-networking server
and the Steam networking-sockets SDK), together with the spec-modelled slice of
the upstream `RenetServer` interface that the transport consumes.

SDK interactions (friend queries, lobby-member queries, message receipt,
accept/`set_data` failures) are modelled as explicit environment inputs; the
externally visible calls the transport makes (accept, reject, close, packet
processing, logging) are recorded as an effect trace.
-/

namespace RenetSteam

/-- A Steam identity: `steamworks::SteamId`, a 64-bit user id.  The transport
uses `steam_id.raw()` as the upstream client identifier, so `SteamId` and
`ClientId` coincide and `raw` is the identity map. -/
abbrev SteamId := Nat

/-- The upstream client identifier (`renet::ClientId`, a `u64`). -/
abbrev ClientId := Nat

/-- A packet payload: a byte sequence. -/
abbrev Payload := List Nat

/-- A Steam lobby identifier (`steamworks::LobbyId`). -/
abbrev LobbyId := Nat

/-- A live SDK connection handle (`steamworks::networking_sockets::NetConnection`),
modelled as an opaque token. -/
structure NetConnection where
  handle : Nat
deriving DecidableEq

/-- Connection-end reasons (`steamworks::networking_types::NetConnectionEnd`).
The transport only ever uses `AppGeneric`; a second variant keeps the type
non-degenerate. -/
inductive NetConnectionEnd where
  | AppGeneric
  | AppException
deriving DecidableEq

/-- Per-message send flags, as the SDK bitmask. -/
abbrev SendFlags := Nat

/-- The SDK flag value for unreliable delivery. -/
def SEND_UNRELIABLE : SendFlags := 0

/-- The SDK flag bit disabling Nagle batching. -/
def SEND_NO_NAGLE : SendFlags := 1

/-- `SendFlags::UNRELIABLE_NO_NAGLE`, the only flag combination the transport uses. -/
def UNRELIABLE_NO_NAGLE : SendFlags := SEND_UNRELIABLE ||| SEND_NO_NAGLE

/-- `AccessPermission` from `server.rs`: the five admission-policy shapes.
The source stores the `InList` identities in a `HashSet`; it is modelled as a
list queried only through membership. -/
inductive AccessPermission where
  | Public
  | Private
  | FriendsOnly
  | InList (list : List SteamId)
  | InLobby (lobby : LobbyId)
deriving DecidableEq

/-- An SDK outbound message (`NetworkingMessage`) after the transport has set
its connection, send-flags and data. -/
structure NetworkingMessage where
  connection : NetConnection
  send_flags : SendFlags
  data : Payload
deriving DecidableEq

/-- `SteamServerConfig` from `server.rs`. -/
structure SteamServerConfig where
  max_clients : Nat
  access_permission : AccessPermission

/-- The mutable state of `SteamServerTransport`.  The SDK subsystem handles
(`listen_socket`, `utils`, `matchmaking`, `friends`) carry no state the
transport reads; their query results enter through the event/environment
inputs below.  `connections` models the `HashMap<ClientId, NetConnection>`
as an association list with unique keys, `messages` the `Vec` batch buffer. -/
structure SteamServerTransport where
  max_clients : Nat
  access_permission : AccessPermission
  connections : List (ClientId × NetConnection)
  messages : List NetworkingMessage
deriving DecidableEq

/-- Modelled from the spec: the slice of the upstream `RenetServer` the
transport consumes (spec §6).  Its implementation is not under `src/`.
`clients` is the set of registered connected clients (`add_connection` is
idempotent registration, `remove_connection` idempotent deregistration,
`connected_clients` the count, `clients_id` the enumeration); `pending id`
is the outbound queue read by `get_packets_to_send`, which fails exactly
when the client is not registered.  `process_packet_from` is an ingress
sink and does not alter the registered-client set. -/
structure RenetServer where
  clients : List ClientId
  pending : ClientId → List Payload

/-- Modelled from the spec: `add_connection(identity)` — idempotent registration. -/
def add_connection (s : RenetServer) (id : ClientId) : RenetServer :=
  if id ∈ s.clients then s else { s with clients := id :: s.clients }

/-- Modelled from the spec: `remove_connection(identity)` — idempotent deregistration. -/
def remove_connection (s : RenetServer) (id : ClientId) : RenetServer :=
  { s with clients := s.clients.filter (fun x => x ≠ id) }

/-- Modelled from the spec: `connected_clients()`, the registered-client count. -/
def connected_clients (s : RenetServer) : Nat := s.clients.length

/-- Modelled from the spec: `clients_id()`, the registered-client enumeration. -/
def clients_id (s : RenetServer) : List ClientId := s.clients

/-- Modelled from the spec: `get_packets_to_send(identity)`, the egress source;
it errs exactly when the identity is not a registered client. -/
def get_packets_to_send (s : RenetServer) (id : ClientId) : Option (List Payload) :=
  if id ∈ s.clients then some (s.pending id) else none

/-- SDK query results visible to one `Connecting` event: the friends-subsystem
answer to `get_friend(id).has_friend(IMMEDIATE)` and the matchmaking answer to
`lobby_members(lobby)`.  Each `Connecting` event carries its own snapshot,
modelling that these are queried live, per event. -/
structure SteamEnv where
  isImmediateFriend : SteamId → Bool
  lobbyMembers : LobbyId → List SteamId

/-- `ListenSocketEvent`: the three event kinds drained from the listen socket.
`Connected` carries the connection handle yielded by `take_connection`;
`Connecting` carries whether the candidate asserts an identity, whether the
`accept()` call would fail, and the SDK query snapshot for the policy check. -/
inductive ListenSocketEvent where
  | Connected (steamId : Option SteamId) (conn : NetConnection)
  | Disconnected (steamId : Option SteamId)
  | Connecting (steamId : Option SteamId) (acceptFails : Bool) (env : SteamEnv)

/-- The externally visible calls the transport makes, recorded as a trace. -/
inductive Effect where
  | accept (id : SteamId)
  | acceptFailedLog (id : SteamId)
  | reject (reason : NetConnectionEnd) (msg : Option String)
  | close (conn : NetConnection) (reason : NetConnectionEnd) (msg : Option String)
      (flush : Bool)
  | processed (data : Payload) (id : ClientId)
  | logErr (msg : String)
deriving DecidableEq

/-- `HashMap` lookup on the association-list model (`connections.get`). -/
def lookupConn (id : ClientId) : List (ClientId × NetConnection) → Option NetConnection
  | [] => none
  | (k, c) :: rest => if k = id then some c else lookupConn id rest

/-- `HashMap` insert: the new binding replaces any binding of the same key. -/
def insertConn (l : List (ClientId × NetConnection)) (id : ClientId) (c : NetConnection) :
    List (ClientId × NetConnection) :=
  (id, c) :: l.filter (fun p => p.1 ≠ id)

/-- `HashMap` remove: drop the binding of the key. -/
def removeConn (l : List (ClientId × NetConnection)) (id : ClientId) :
    List (ClientId × NetConnection) :=
  l.filter (fun p => p.1 ≠ id)

/-- The keys of the connection table. -/
def tableKeys (st : SteamServerTransport) : List ClientId :=
  st.connections.map Prod.fst

/-- The admission decision of `update`'s `Connecting` arm, translated from the
`match &self.access_permission` expression of `server.rs` lines 139-151. -/
def permitted (env : SteamEnv) (ap : AccessPermission) (steam_id : SteamId) : Bool :=
  match ap with
  | .Public => true
  | .Private => false
  | .FriendsOnly => env.isImmediateFriend steam_id
  | .InList list => list.contains steam_id
  | .InLobby lobby => (env.lobbyMembers lobby).contains steam_id

/-- One iteration of `update`'s event loop (`server.rs` lines 115-161):
dispatch on the event kind and return the new transport state, the new
upstream-server state, and the trace of calls made. -/
def processEvent (st : SteamServerTransport) (server : RenetServer)
    (ev : ListenSocketEvent) : SteamServerTransport × RenetServer × List Effect :=
  match ev with
  | .Connected steamId conn =>
    match steamId with
    | some sid =>
      ({ st with connections := insertConn st.connections sid conn },
       add_connection server sid, [])
    | none => (st, server, [])
  | .Disconnected steamId =>
    match steamId with
    | some sid =>
      ({ st with connections := removeConn st.connections sid },
       remove_connection server sid, [])
    | none => (st, server, [])
  | .Connecting steamId acceptFails env =>
    if connected_clients server ≥ st.max_clients then
      (st, server, [.reject .AppGeneric (some ("Too many clients"))])
    else
      match steamId with
      | none => (st, server, [.reject .AppGeneric (some ("Invalid steam id"))])
      | some sid =>
        if permitted env st.access_permission sid then
          if acceptFails then (st, server, [.accept sid, .acceptFailedLog sid])
          else (st, server, [.accept sid])
        else (st, server, [.reject .AppGeneric (some ("Not allowed"))])

/-- The event loop of `update`: drain the pending events in order, threading
state and concatenating traces. -/
def processEvents : SteamServerTransport → RenetServer → List ListenSocketEvent →
    SteamServerTransport × RenetServer × List Effect
  | st, server, [] => (st, server, [])
  | st, server, ev :: rest =>
    let r := processEvent st server ev
    let r2 := processEvents r.1 r.2.1 rest
    (r2.1, r2.2.1, r.2.2 ++ r2.2.2)

/-- `MAX_MESSAGE_BATCH_SIZE` from `lib.rs`. -/
def MAX_MESSAGE_BATCH_SIZE : Nat := 512

/-- Per-tick ingress inputs: `inbox id` is the result of
`connection.receive_messages(MAX_MESSAGE_BATCH_SIZE)` (`none` = SDK error,
ignored for the tick); `processError m id` is the error, if any, returned by
`server.process_packet_from(m, id)`. -/
structure IngressEnv where
  inbox : ClientId → Option (List Payload)
  processError : Payload → ClientId → Option String

/-- Ingress for one connection (`server.rs` lines 166-172): each received
message is handed to `process_packet_from`; an upstream error is logged and
processing continues. -/
def ingressMessages (ienv : IngressEnv) (id : ClientId) : List Effect :=
  match ienv.inbox id with
  | none => []
  | some msgs =>
    (msgs.take MAX_MESSAGE_BATCH_SIZE).map (fun m =>
      match ienv.processError m id with
      | none => Effect.processed m id
      | some e => Effect.logErr e)

/-- The ingress pass of `update` (`server.rs` lines 164-173): iterate the
connection table; neither the table nor the registered-client set changes. -/
def ingress (st : SteamServerTransport) (ienv : IngressEnv) : List Effect :=
  st.connections.flatMap (fun p => ingressMessages ienv p.1)

/-- `SteamServerTransport::update`: drain the event queue, then run ingress
over the (updated) connection table. -/
def update (st : SteamServerTransport) (server : RenetServer)
    (events : List ListenSocketEvent) (ienv : IngressEnv) :
    SteamServerTransport × RenetServer × List Effect :=
  let r := processEvents st server events
  (r.1, r.2.1, r.2.2 ++ ingress r.1 ienv)

/-- `SteamServerTransport::set_access_permissions`. -/
def set_access_permissions (st : SteamServerTransport) (ap : AccessPermission) :
    SteamServerTransport :=
  { st with access_permission := ap }

/-- `SteamServerTransport::disconnect_client` (`server.rs` lines 92-97): if the
table holds the client, remove its entry and close the handle; in every case
call `server.remove_connection`. -/
def disconnect_client (st : SteamServerTransport) (client_id : ClientId)
    (server : RenetServer) (flush_last_packets : Bool) :
    SteamServerTransport × RenetServer × List Effect :=
  match lookupConn client_id st.connections with
  | some conn =>
    ({ st with connections := removeConn st.connections client_id },
     remove_connection server client_id,
     [.close conn .AppGeneric (some ("Client was kicked")) flush_last_packets])
  | none => (st, remove_connection server client_id, [])

/-- The loop body of `disconnect_all` over the collected key list.  The source
unwraps `remove_entry`; a failing unwrap (key absent) is a panic, modelled as
`none`. -/
def disconnectAllGo (flush : Bool) : SteamServerTransport → RenetServer → List ClientId →
    Option (SteamServerTransport × RenetServer × List Effect)
  | st, server, [] => some (st, server, [])
  | st, server, id :: rest =>
    match lookupConn id st.connections with
    | none => none
    | some conn =>
      match disconnectAllGo flush { st with connections := removeConn st.connections id }
          (remove_connection server id) rest with
      | none => none
      | some r =>
        some (r.1, r.2.1,
          Effect.close conn .AppGeneric (some ("Client was kicked")) flush :: r.2.2)

/-- `SteamServerTransport::disconnect_all` (`server.rs` lines 100-110): collect
the table's keys, then remove-and-close each, calling `remove_connection`
upstream per client.  `none` models the `unwrap` panic. -/
def disconnect_all (st : SteamServerTransport) (server : RenetServer) (flush : Bool) :
    Option (SteamServerTransport × RenetServer × List Effect) :=
  disconnectAllGo flush st server (tableKeys st)

/-- The inner packet loop of `send_packets` (`server.rs` lines 185-194) for one
client: allocate a message per payload, attach the connection and
`UNRELIABLE_NO_NAGLE`, copy the data.  A `set_data` failure (given by `fails`)
logs and abandons the remaining payloads of this client (`continue 'clients`). -/
def buildMessages (conn : NetConnection) (fails : Payload → Bool) :
    List Payload → List NetworkingMessage
  | [] => []
  | p :: rest =>
    if fails p then []
    else { connection := conn, send_flags := UNRELIABLE_NO_NAGLE, data := p } ::
      buildMessages conn fails rest

/-- The client loop of `send_packets` (`server.rs` lines 178-195): for each
upstream client id, skip it if the table has no entry (logged), otherwise
unwrap `get_packets_to_send` (`none` models the panic) and build the messages
pushed for that client. -/
def sendPacketsGo (st : SteamServerTransport) (server : RenetServer)
    (fails : ClientId → Payload → Bool) : List ClientId → Option (List NetworkingMessage)
  | [] => some []
  | id :: rest =>
    match lookupConn id st.connections with
    | none => sendPacketsGo st server fails rest
    | some conn =>
      match get_packets_to_send server id with
      | none => none
      | some packets =>
        match sendPacketsGo st server fails rest with
        | none => none
        | some msgs => some (buildMessages conn (fails id) packets ++ msgs)

/-- `SteamServerTransport::send_packets`: run the client loop pushing onto the
batch buffer, then drain the whole buffer into one `send_messages` call (made
only when non-empty; the drained batch is returned).  `none` models the
`unwrap` panic on `get_packets_to_send`. -/
def send_packets (st : SteamServerTransport) (server : RenetServer)
    (fails : ClientId → Payload → Bool) :
    Option (SteamServerTransport × List NetworkingMessage) :=
  match sendPacketsGo st server fails (clients_id server) with
  | none => none
  | some newMsgs => some ({ st with messages := [] }, st.messages ++ newMsgs)

/-- The transport state built by a successful constructor call: both `new` and
`new_ip` start with an empty connection table and an empty batch buffer. -/
def newTransport (config : SteamServerConfig) : SteamServerTransport :=
  { max_clients := config.max_clients, access_permission := config.access_permission,
    connections := [], messages := [] }

/-- `SteamServerTransport::new`: `socketOk` models whether the SDK's
`create_listen_socket_p2p` succeeds; on failure the constructor returns the
`InvalidHandle` error (here `none`) without constructing a transport. -/
def SteamServerTransport.new (config : SteamServerConfig) (socketOk : Bool) :
    Option SteamServerTransport :=
  if socketOk then some (newTransport config) else none

/-- `SteamServerTransport::new_ip`: identical state construction; the address,
port and options only parameterize the SDK socket, which holds no modelled state. -/
def SteamServerTransport.new_ip (config : SteamServerConfig) (socketOk : Bool) :
    Option SteamServerTransport :=
  if socketOk then some (newTransport config) else none

/-- Well-formedness of the connection table: the `HashMap` has unique keys. -/
def TableWF (st : SteamServerTransport) : Prop := (tableKeys st).Nodup

/-- The consistency invariant relating the transport to the upstream server:
unique table keys, unique registered clients, and the two identity sets agree. -/
def Inv (st : SteamServerTransport) (server : RenetServer) : Prop :=
  (tableKeys st).Nodup ∧ server.clients.Nodup ∧
    ∀ id, id ∈ tableKeys st ↔ id ∈ server.clients

/-! Helper lemmas about the table and server primitives. -/

lemma mem_map_fst_insertConn {l : List (ClientId × NetConnection)} {id x : ClientId}
    {c : NetConnection} :
    x ∈ (insertConn l id c).map Prod.fst ↔ x = id ∨ x ∈ l.map Prod.fst := by
  simp only [insertConn, List.map_cons, List.mem_cons, List.mem_map, List.mem_filter,
    decide_eq_true_eq]
  constructor
  · rintro (rfl | ⟨p, ⟨hp, _⟩, rfl⟩)
    · exact Or.inl rfl
    · exact Or.inr ⟨p, hp, rfl⟩
  · rintro (rfl | ⟨p, hp, rfl⟩)
    · exact Or.inl rfl
    · by_cases h : p.1 = id
      · exact Or.inl h
      · exact Or.inr ⟨p, ⟨hp, h⟩, rfl⟩

lemma mem_map_fst_removeConn {l : List (ClientId × NetConnection)} {id x : ClientId} :
    x ∈ (removeConn l id).map Prod.fst ↔ x ∈ l.map Prod.fst ∧ x ≠ id := by
  simp only [removeConn, List.mem_map, List.mem_filter, decide_eq_true_eq]
  constructor
  · rintro ⟨p, ⟨hp, hne⟩, rfl⟩
    exact ⟨⟨p, hp, rfl⟩, hne⟩
  · rintro ⟨⟨p, hp, rfl⟩, hne⟩
    exact ⟨p, ⟨hp, hne⟩, rfl⟩

lemma nodup_map_fst_filter {l : List (ClientId × NetConnection)}
    (h : (l.map Prod.fst).Nodup) (q : ClientId × NetConnection → Bool) :
    ((l.filter q).map Prod.fst).Nodup :=
  h.sublist ((List.filter_sublist l).map Prod.fst)

lemma nodup_map_fst_insertConn {l : List (ClientId × NetConnection)} {id : ClientId}
    {c : NetConnection} (h : (l.map Prod.fst).Nodup) :
    ((insertConn l id c).map Prod.fst).Nodup := by
  simp only [insertConn, List.map_cons, List.nodup_cons]
  refine ⟨?_, nodup_map_fst_filter h _⟩
  simp only [List.mem_map, List.mem_filter, decide_eq_true_eq]
  rintro ⟨p, ⟨_, hne⟩, rfl⟩
  exact hne rfl

lemma nodup_map_fst_removeConn {l : List (ClientId × NetConnection)} {id : ClientId}
    (h : (l.map Prod.fst).Nodup) : ((removeConn l id).map Prod.fst).Nodup :=
  nodup_map_fst_filter h _

lemma mem_add_connection {s : RenetServer} {id x : ClientId} :
    x ∈ (add_connection s id).clients ↔ x = id ∨ x ∈ s.clients := by
  unfold add_connection
  by_cases h : id ∈ s.clients
  · simp only [if_pos h]
    constructor
    · exact Or.inr
    · rintro (rfl | hx)
      · exact h
      · exact hx
  · simp [if_neg h]

lemma mem_remove_connection {s : RenetServer} {id x : ClientId} :
    x ∈ (remove_connection s id).clients ↔ x ∈ s.clients ∧ x ≠ id := by
  simp [remove_connection, List.mem_filter]

lemma nodup_add_connection {s : RenetServer} {id : ClientId} (h : s.clients.Nodup) :
    (add_connection s id).clients.Nodup := by
  unfold add_connection
  by_cases hm : id ∈ s.clients
  · simpa [if_pos hm] using h
  · simpa [if_neg hm, List.nodup_cons] using ⟨hm, h⟩

lemma nodup_remove_connection {s : RenetServer} {id : ClientId} (h : s.clients.Nodup) :
    (remove_connection s id).clients.Nodup :=
  h.sublist (List.filter_sublist s.clients)

lemma lookupConn_eq_none_iff {id : ClientId} {l : List (ClientId × NetConnection)} :
    lookupConn id l = none ↔ id ∉ l.map Prod.fst := by
  induction l with
  | nil => simp [lookupConn]
  | cons p rest ih =>
    obtain ⟨k, c⟩ := p
    by_cases h : k = id
    · subst h
      simp [lookupConn]
    · simp only [lookupConn, if_neg h, List.map_cons, List.mem_cons, ih]
      constructor
      · rintro hni (h1 | h2)
        · exact h h1.symm
        · exact hni h2
      · intro hni h2
        exact hni (Or.inr h2)

lemma lookupConn_mem {id : ClientId} {c : NetConnection}
    {l : List (ClientId × NetConnection)} (h : lookupConn id l = some c) : (id, c) ∈ l := by
  induction l with
  | nil => simp [lookupConn] at h
  | cons p rest ih =>
    obtain ⟨k, c'⟩ := p
    by_cases hk : k = id
    · subst hk
      simp only [lookupConn, if_true, eq_self_iff_true, Option.some.injEq] at h
      rw [h]
      exact List.mem_cons_self _ _
    · simp only [lookupConn, if_neg hk] at h
      exact List.mem_cons_of_mem _ (ih h)

lemma lookupConn_isSome_of_mem {id : ClientId} {l : List (ClientId × NetConnection)}
    (h : id ∈ l.map Prod.fst) : ∃ c, lookupConn id l = some c := by
  cases hl : lookupConn id l with
  | some c => exact ⟨c, rfl⟩
  | none => exact absurd h (lookupConn_eq_none_iff.mp hl)

lemma lookupConn_of_mem_nodup {l : List (ClientId × NetConnection)}
    (hn : (l.map Prod.fst).Nodup) {id : ClientId} {c : NetConnection}
    (hm : (id, c) ∈ l) : lookupConn id l = some c := by
  induction l with
  | nil => simp at hm
  | cons p rest ih =>
    obtain ⟨k, c'⟩ := p
    simp only [List.map_cons, List.nodup_cons] at hn
    rcases List.mem_cons.mp hm with heq | hmem
    · obtain ⟨hk, hc⟩ := Prod.ext_iff.mp heq
      subst hk
      subst hc
      simp [lookupConn]
    · have hne : k ≠ id := by
        intro hk
        exact hn.1 (hk ▸ (List.mem_map.mpr ⟨(id, c), hmem, rfl⟩))
      simp only [lookupConn, if_neg hne]
      exact ih hn.2 hmem

lemma lookupConn_filter_ne {l : List (ClientId × NetConnection)} {id x : ClientId}
    (h : x ≠ id) :
    lookupConn x (l.filter (fun p => p.1 ≠ id)) = lookupConn x l := by
  induction l with
  | nil => rfl
  | cons p rest ih =>
    obtain ⟨k, c⟩ := p
    by_cases hk : k = id
    · subst hk
      have : ¬ (k = x) := fun hkx => h (hkx ▸ rfl)
      simp only [List.filter_cons, decide_eq_true_eq]
      rw [if_neg (by simp)]
      simp only [lookupConn, if_neg this]
      exact ih
    · simp only [List.filter_cons]
      rw [if_pos (by simp [hk])]
      by_cases hkx : k = x
      · subst hkx
        simp [lookupConn]
      · simp only [lookupConn, if_neg hkx]
        exact ih

/-! Preservation of the consistency invariant. -/

lemma processEvent_connecting_state (st : SteamServerTransport) (server : RenetServer)
    (a : Option SteamId) (b : Bool) (c : SteamEnv) :
    (processEvent st server (.Connecting a b c)).1 = st ∧
      (processEvent st server (.Connecting a b c)).2.1 = server := by
  simp only [processEvent]
  by_cases h : connected_clients server ≥ st.max_clients
  · simp [h]
  · simp only [if_neg h]
    cases a with
    | none => simp
    | some sid =>
      by_cases hp : permitted c st.access_permission sid
      · cases b <;> simp [hp]
      · simp [hp]

lemma Inv_processEvent {st : SteamServerTransport} {server : RenetServer}
    (ev : ListenSocketEvent) (h : Inv st server) :
    Inv (processEvent st server ev).1 (processEvent st server ev).2.1 := by
  obtain ⟨h1, h2, h3⟩ := h
  cases ev with
  | Connected steamId conn =>
    cases steamId with
    | none => exact ⟨h1, h2, h3⟩
    | some sid =>
      simp only [processEvent]
      refine ⟨nodup_map_fst_insertConn h1, nodup_add_connection h2, ?_⟩
      intro id
      show id ∈ (insertConn st.connections sid conn).map Prod.fst ↔ _
      rw [mem_map_fst_insertConn, mem_add_connection]
      exact or_congr Iff.rfl (h3 id)
  | Disconnected steamId =>
    cases steamId with
    | none => exact ⟨h1, h2, h3⟩
    | some sid =>
      simp only [processEvent]
      refine ⟨nodup_map_fst_removeConn h1, nodup_remove_connection h2, ?_⟩
      intro id
      show id ∈ (removeConn st.connections sid).map Prod.fst ↔ _
      rw [mem_map_fst_removeConn, mem_remove_connection]
      exact and_congr (h3 id) Iff.rfl
  | Connecting a b c =>
    obtain ⟨e1, e2⟩ := processEvent_connecting_state st server a b c
    rw [e1, e2]
    exact ⟨h1, h2, h3⟩

lemma Inv_processEvents {st : SteamServerTransport} {server : RenetServer}
    (evs : List ListenSocketEvent) (h : Inv st server) :
    Inv (processEvents st server evs).1 (processEvents st server evs).2.1 := by
  induction evs generalizing st server with
  | nil => exact h
  | cons ev rest ih =>
    simp only [processEvents]
    exact ih (Inv_processEvent ev h)

lemma maxClients_processEvent (st : SteamServerTransport) (server : RenetServer)
    (ev : ListenSocketEvent) :
    (processEvent st server ev).1.max_clients = st.max_clients := by
  cases ev with
  | Connected steamId conn => cases steamId <;> simp [processEvent]
  | Disconnected steamId => cases steamId <;> simp [processEvent]
  | Connecting a b c => rw [(processEvent_connecting_state st server a b c).1]

lemma maxClients_processEvents (st : SteamServerTransport) (server : RenetServer)
    (evs : List ListenSocketEvent) :
    (processEvents st server evs).1.max_clients = st.max_clients := by
  induction evs generalizing st server with
  | nil => rfl
  | cons ev rest ih =>
    simp only [processEvents]
    rw [ih, maxClients_processEvent]

lemma Inv_update {st : SteamServerTransport} {server : RenetServer}
    (evs : List ListenSocketEvent) (ienv : IngressEnv) (h : Inv st server) :
    Inv (update st server evs ienv).1 (update st server evs ienv).2.1 :=
  Inv_processEvents evs h

lemma length_eq_of_Inv {st : SteamServerTransport} {server : RenetServer}
    (h : Inv st server) : (tableKeys st).length = connected_clients server :=
  ((List.perm_ext_iff_of_nodup h.1 h.2.1).mpr h.2.2).length_eq

lemma Inv_disconnect_client {st : SteamServerTransport} {server : RenetServer}
    (client_id : ClientId) (flush : Bool) (h : Inv st server) :
    Inv (disconnect_client st client_id server flush).1
      (disconnect_client st client_id server flush).2.1 := by
  obtain ⟨h1, h2, h3⟩ := h
  unfold disconnect_client
  cases hl : lookupConn client_id st.connections with
  | some conn =>
    refine ⟨nodup_map_fst_removeConn h1, nodup_remove_connection h2, ?_⟩
    intro id
    show id ∈ (removeConn st.connections client_id).map Prod.fst ↔ _
    rw [mem_map_fst_removeConn, mem_remove_connection]
    exact and_congr (h3 id) Iff.rfl
  | none =>
    refine ⟨h1, nodup_remove_connection h2, ?_⟩
    intro id
    show id ∈ tableKeys st ↔ _
    rw [mem_remove_connection, ← h3 id]
    constructor
    · intro hm
      refine ⟨hm, ?_⟩
      rintro rfl
      exact (lookupConn_eq_none_iff.mp hl) hm
    · exact And.left

lemma disconnectAllGo_spec (flush : Bool) :
    ∀ (ids : List ClientId) (st : SteamServerTransport) (server : RenetServer),
    ids.Nodup → (∀ id ∈ ids, id ∈ tableKeys st) →
    ∃ r, disconnectAllGo flush st server ids = some r ∧
      r.1.connections = st.connections.filter (fun p => ¬ p.1 ∈ ids) ∧
      r.1.max_clients = st.max_clients ∧
      r.1.access_permission = st.access_permission ∧
      r.1.messages = st.messages ∧
      r.2.1.clients = server.clients.filter (fun x => ¬ x ∈ ids) ∧
      r.2.1.pending = server.pending ∧
      ∀ id ∈ ids, ∃ conn, lookupConn id st.connections = some conn ∧
        Effect.close conn .AppGeneric (some ("Client was kicked")) flush ∈ r.2.2 := by
  intro ids
  induction ids with
  | nil =>
    intro st server _ _
    refine ⟨(st, server, []), rfl, by simp, rfl, rfl, rfl, by simp, rfl, by simp⟩
  | cons id rest ih =>
    intro st server hnd hsub
    have hid : id ∈ tableKeys st := hsub id (List.mem_cons_self _ _)
    obtain ⟨conn, hconn⟩ := lookupConn_isSome_of_mem hid
    simp only [List.nodup_cons] at hnd
    have hsub' : ∀ x ∈ rest, x ∈ tableKeys
        { st with connections := removeConn st.connections id } := by
      intro x hx
      have hxk : x ∈ tableKeys st := hsub x (List.mem_cons_of_mem _ hx)
      have hxne : x ≠ id := fun hxi => hnd.1 (hxi ▸ hx)
      exact mem_map_fst_removeConn.mpr ⟨hxk, hxne⟩
    obtain ⟨r, hr, hc, hmax, hap, hmsg, hcl, hpend, heff⟩ :=
      ih { st with connections := removeConn st.connections id }
        (remove_connection server id) hnd.2 hsub'
    refine ⟨(r.1, r.2.1, Effect.close conn .AppGeneric (some ("Client was kicked"))
      flush :: r.2.2), ?_, ?_, hmax, hap, hmsg, ?_, hpend, ?_⟩
    · simp only [disconnectAllGo, hconn, hr]
    · rw [hc]
      show (removeConn st.connections id).filter _ = _
      rw [removeConn, List.filter_filter]
      refine List.filter_congr ?_
      intro p _
      by_cases hp : p.1 = id
      · simp [hp]
      · simp [hp]
    · rw [hcl]
      show ((remove_connection server id).clients).filter _ = _
      rw [remove_connection, List.filter_filter]
      refine List.filter_congr ?_
      intro x _
      by_cases hx : x = id
      · simp [hx]
      · simp [hx]
    · intro x hx
      rcases List.mem_cons.mp hx with rfl | hxr
      · exact ⟨conn, hconn, List.mem_cons_self _ _⟩
      · obtain ⟨c', hc', hm'⟩ := heff x hxr
        have hxne : x ≠ id := fun hxi => hnd.1 (hxi ▸ hxr)
        refine ⟨c', ?_, List.mem_cons_of_mem _ hm'⟩
        rw [← lookupConn_filter_ne hxne]
        exact hc'

lemma disconnect_all_spec {st : SteamServerTransport} {server : RenetServer}
    {flush : Bool} (hwf : TableWF st) :
    ∃ r, disconnect_all st server flush = some r ∧
      r.1.connections = [] ∧
      r.1.max_clients = st.max_clients ∧
      r.1.access_permission = st.access_permission ∧
      r.1.messages = st.messages ∧
      r.2.1.clients = server.clients.filter (fun x => ¬ x ∈ tableKeys st) ∧
      r.2.1.pending = server.pending ∧
      ∀ p ∈ st.connections,
        Effect.close p.2 .AppGeneric (some ("Client was kicked")) flush ∈ r.2.2 := by
  obtain ⟨r, hr, hc, hmax, hap, hmsg, hcl, hpend, heff⟩ :=
    disconnectAllGo_spec flush (tableKeys st) st server hwf (fun _ h => h)
  refine ⟨r, hr, ?_, hmax, hap, hmsg, hcl, hpend, ?_⟩
  · rw [hc, List.filter_eq_nil_iff]
    intro p hp
    simp only [decide_eq_true_eq, Decidable.not_not]
    exact List.mem_map.mpr ⟨p, hp, rfl⟩
  · intro p hp
    obtain ⟨c', hc', hm'⟩ := heff p.1 (List.mem_map.mpr ⟨p, hp, rfl⟩)
    have : lookupConn p.1 st.connections = some p.2 := lookupConn_of_mem_nodup hwf hp
    rw [this] at hc'
    cases hc'
    exact hm'

lemma Inv_disconnect_all {st : SteamServerTransport} {server : RenetServer} {flush : Bool}
    (h : Inv st server) (r : SteamServerTransport × RenetServer × List Effect)
    (hr : disconnect_all st server flush = some r) : Inv r.1 r.2.1 := by
  obtain ⟨h1, h2, h3⟩ := h
  obtain ⟨r0, hr0, hc, _, _, _, hcl, _, _⟩ :=
    @disconnect_all_spec st server flush h1
  rw [hr0] at hr
  have he : r0 = r := Option.some.inj hr
  rw [← he]
  refine ⟨?_, ?_, ?_⟩
  · show (r0.1.connections.map Prod.fst).Nodup
    rw [hc]
    exact List.nodup_nil
  · rw [hcl]
    exact h2.sublist (List.filter_sublist _)
  · intro id
    show id ∈ r0.1.connections.map Prod.fst ↔ _
    rw [hc, hcl]
    simp only [List.map_nil, List.not_mem_nil, List.mem_filter, decide_eq_true_eq,
      false_iff, not_and]
    intro hmem
    simpa using (h3 id).mpr hmem

/-! The batch buffer is untouched by everything except `send_packets`, which
leaves it empty. -/

lemma messages_processEvent (st : SteamServerTransport) (server : RenetServer)
    (ev : ListenSocketEvent) :
    (processEvent st server ev).1.messages = st.messages := by
  cases ev with
  | Connected steamId conn => cases steamId <;> simp [processEvent]
  | Disconnected steamId => cases steamId <;> simp [processEvent]
  | Connecting a b c => rw [(processEvent_connecting_state st server a b c).1]

lemma messages_processEvents (st : SteamServerTransport) (server : RenetServer)
    (evs : List ListenSocketEvent) :
    (processEvents st server evs).1.messages = st.messages := by
  induction evs generalizing st server with
  | nil => rfl
  | cons ev rest ih =>
    simp only [processEvents]
    rw [ih, messages_processEvent]

lemma messages_update (st : SteamServerTransport) (server : RenetServer)
    (evs : List ListenSocketEvent) (ienv : IngressEnv) :
    (update st server evs ienv).1.messages = st.messages :=
  messages_processEvents st server evs

lemma messages_disconnect_client (st : SteamServerTransport) (client_id : ClientId)
    (server : RenetServer) (flush : Bool) :
    (disconnect_client st client_id server flush).1.messages = st.messages := by
  unfold disconnect_client
  cases lookupConn client_id st.connections <;> rfl

lemma messages_disconnectAllGo {flush : Bool} :
    ∀ (ids : List ClientId) (st : SteamServerTransport) (server : RenetServer)
    (r : SteamServerTransport × RenetServer × List Effect),
    disconnectAllGo flush st server ids = some r → r.1.messages = st.messages := by
  intro ids
  induction ids with
  | nil =>
    intro st server r hr
    cases hr
    rfl
  | cons id rest ih =>
    intro st server r hr
    simp only [disconnectAllGo] at hr
    cases hl : lookupConn id st.connections with
    | none => rw [hl] at hr; cases hr
    | some conn =>
      rw [hl] at hr
      cases hrec : disconnectAllGo flush
          { st with connections := removeConn st.connections id }
          (remove_connection server id) rest with
      | none => rw [hrec] at hr; cases hr
      | some r' =>
        rw [hrec] at hr
        cases hr
        exact ih { st with connections := removeConn st.connections id }
          (remove_connection server id) r' hrec

lemma messages_send_packets {st : SteamServerTransport} {server : RenetServer}
    {fails : ClientId → Payload → Bool} {r : SteamServerTransport × List NetworkingMessage}
    (hr : send_packets st server fails = some r) : r.1.messages = [] := by
  unfold send_packets at hr
  cases hgo : sendPacketsGo st server fails (clients_id server) with
  | none => rw [hgo] at hr; cases hr
  | some msgs =>
    rw [hgo] at hr
    cases hr
    rfl

/-- The states the transport can be in: the post-constructor state followed by
any sequence of public operations (panicking runs excluded by the `some`
hypotheses). -/
inductive Reachable : SteamServerTransport → Prop where
  | ctor (config : SteamServerConfig) : Reachable (newTransport config)
  | step_update (st : SteamServerTransport) (server : RenetServer)
      (evs : List ListenSocketEvent) (ienv : IngressEnv) :
      Reachable st → Reachable (update st server evs ienv).1
  | step_set (st : SteamServerTransport) (ap : AccessPermission) :
      Reachable st → Reachable (set_access_permissions st ap)
  | step_disconnect (st : SteamServerTransport) (client_id : ClientId)
      (server : RenetServer) (flush : Bool) :
      Reachable st → Reachable (disconnect_client st client_id server flush).1
  | step_disconnect_all (st : SteamServerTransport) (server : RenetServer) (flush : Bool)
      (r : SteamServerTransport × RenetServer × List Effect) :
      Reachable st → disconnect_all st server flush = some r → Reachable r.1
  | step_send (st : SteamServerTransport) (server : RenetServer)
      (fails : ClientId → Payload → Bool) (r : SteamServerTransport × List NetworkingMessage) :
      Reachable st → send_packets st server fails = some r → Reachable r.1

lemma Reachable_messages {st : SteamServerTransport} (h : Reachable st) :
    st.messages = [] := by
  induction h with
  | ctor config => rfl
  | step_update st server evs ienv _ ih => rw [messages_update]; exact ih
  | step_set st ap _ ih => exact ih
  | step_disconnect st client_id server flush _ ih =>
    rw [messages_disconnect_client]; exact ih
  | step_disconnect_all st server flush r _ hr ih =>
    rw [messages_disconnectAllGo (tableKeys st) st server r hr]; exact ih
  | step_send st server fails r _ hr _ => exact messages_send_packets hr

/-! The admission decision. -/

lemma accept_mem_cap {st : SteamServerTransport} {server : RenetServer}
    {ev : ListenSocketEvent} {sid : SteamId}
    (h : Effect.accept sid ∈ (processEvent st server ev).2.2) :
    connected_clients server < st.max_clients := by
  cases ev with
  | Connected steamId conn => cases steamId <;> simp [processEvent] at h
  | Disconnected steamId => cases steamId <;> simp [processEvent] at h
  | Connecting a b c =>
    by_cases hcap : connected_clients server ≥ st.max_clients
    · simp [processEvent, hcap] at h
    · exact lt_of_not_ge hcap

/-- The admission predicate as the spec words the five policy shapes: Public
admits every identity; Private admits none; FriendsOnly admits iff the friends
subsystem reports the candidate as an immediate friend; InList admits iff the
identity is a member of the set; InLobby admits iff the identity appears in
the lobby-member list queried from the SDK at that event. -/
def specAdmits (env : SteamEnv) (ap : AccessPermission) (candidate : SteamId) : Prop :=
  match ap with
  | .Public => True
  | .Private => False
  | .FriendsOnly => env.isImmediateFriend candidate = true
  | .InList list => candidate ∈ list
  | .InLobby lobby => candidate ∈ env.lobbyMembers lobby

lemma permitted_iff_specAdmits (env : SteamEnv) (ap : AccessPermission) (sid : SteamId) :
    permitted env ap sid = true ↔ specAdmits env ap sid := by
  cases ap <;> simp [permitted, specAdmits, List.contains]

/-! The egress pass. -/

/-- The messages `send_packets` pushes for one enumerated client id. -/
def perClientMsgs (st : SteamServerTransport) (server : RenetServer)
    (fails : ClientId → Payload → Bool) (id : ClientId) : List NetworkingMessage :=
  match lookupConn id st.connections with
  | none => []
  | some conn => buildMessages conn (fails id) (server.pending id)

lemma sendPacketsGo_eq {st : SteamServerTransport} {server : RenetServer}
    {fails : ClientId → Payload → Bool} :
    ∀ ids : List ClientId, (∀ id ∈ ids, id ∈ server.clients) →
    sendPacketsGo st server fails ids =
      some (ids.flatMap (perClientMsgs st server fails)) := by
  intro ids
  induction ids with
  | nil => intro _; rfl
  | cons id rest ih =>
    intro hsub
    have hrest := ih (fun x hx => hsub x (List.mem_cons_of_mem _ hx))
    have hid : id ∈ server.clients := hsub id (List.mem_cons_self _ _)
    simp only [sendPacketsGo, List.flatMap_cons]
    cases hl : lookupConn id st.connections with
    | none =>
      rw [hrest]
      simp [perClientMsgs, hl]
    | some conn =>
      rw [show get_packets_to_send server id = some (server.pending id) by
        simp [get_packets_to_send, hid]]
      rw [hrest]
      simp [perClientMsgs, hl]

lemma send_packets_eq (st : SteamServerTransport) (server : RenetServer)
    (fails : ClientId → Payload → Bool) :
    send_packets st server fails =
      some ({ st with messages := [] },
        st.messages ++ server.clients.flatMap (perClientMsgs st server fails)) := by
  unfold send_packets
  rw [sendPacketsGo_eq (clients_id server) (fun _ h => h)]
  rfl

lemma buildMessages_connection {conn : NetConnection} {f : Payload → Bool} :
    ∀ {ps : List Payload} {m : NetworkingMessage},
    m ∈ buildMessages conn f ps → m.connection = conn := by
  intro ps
  induction ps with
  | nil => intro m hm; simp [buildMessages] at hm
  | cons p rest ih =>
    intro m hm
    by_cases hf : f p
    · simp [buildMessages, hf] at hm
    · simp only [buildMessages, if_neg hf, List.mem_cons] at hm
      rcases hm with rfl | hm
      · rfl
      · exact ih hm

lemma buildMessages_no_fail {conn : NetConnection} {f : Payload → Bool} :
    ∀ {ps : List Payload}, (∀ p ∈ ps, f p = false) →
    buildMessages conn f ps =
      ps.map (fun p =>
        { connection := conn, send_flags := UNRELIABLE_NO_NAGLE, data := p }) := by
  intro ps
  induction ps with
  | nil => intro _; rfl
  | cons p rest ih =>
    intro h
    have hp : f p = false := h p (List.mem_cons_self _ _)
    simp only [buildMessages, hp, Bool.false_eq_true, if_false, List.map_cons]
    rw [ih (fun x hx => h x (List.mem_cons_of_mem _ hx))]

lemma snd_injective {l : List (ClientId × NetConnection)}
    (h : (l.map Prod.snd).Nodup) :
    ∀ {a b : ClientId} {c : NetConnection}, (a, c) ∈ l → (b, c) ∈ l → a = b := by
  induction l with
  | nil => intro a b c ha; simp at ha
  | cons p rest ih =>
    intro a b c ha hb
    simp only [List.map_cons, List.nodup_cons] at h
    rcases List.mem_cons.mp ha with heq | hma
    · rcases List.mem_cons.mp hb with heq' | hmb
      · rw [show a = p.1 from congrArg Prod.fst heq,
          show b = p.1 from congrArg Prod.fst heq']
      · exfalso
        apply h.1
        rw [show p.2 = c from (congrArg Prod.snd heq).symm]
        exact List.mem_map.mpr ⟨(b, c), hmb, rfl⟩
    · rcases List.mem_cons.mp hb with heq' | hmb
      · exfalso
        apply h.1
        rw [show p.2 = c from (congrArg Prod.snd heq').symm]
        exact List.mem_map.mpr ⟨(a, c), hma, rfl⟩
      · exact ih h.2 hma hmb

lemma perClient_filter_ne {st : SteamServerTransport} {server : RenetServer}
    {fails : ClientId → Payload → Bool} {id x : ClientId} {conn : NetConnection}
    (hsnd : (st.connections.map Prod.snd).Nodup)
    (hconn : lookupConn id st.connections = some conn) (hne : x ≠ id) :
    (perClientMsgs st server fails x).filter (fun m => m.connection = conn) = [] := by
  unfold perClientMsgs
  cases hl : lookupConn x st.connections with
  | none => rfl
  | some c' =>
    have hcne : c' ≠ conn := by
      intro hceq
      subst hceq
      exact hne (snd_injective hsnd (lookupConn_mem hl) (lookupConn_mem hconn))
    rw [List.filter_eq_nil_iff]
    intro m hm
    have := buildMessages_connection hm
    simp [this, hcne]

lemma flatMap_filter_none {st : SteamServerTransport} {server : RenetServer}
    {fails : ClientId → Payload → Bool} {id : ClientId} {conn : NetConnection}
    (hsnd : (st.connections.map Prod.snd).Nodup)
    (hconn : lookupConn id st.connections = some conn) :
    ∀ ids : List ClientId, (∀ x ∈ ids, x ≠ id) →
    (ids.flatMap (perClientMsgs st server fails)).filter
      (fun m => m.connection = conn) = [] := by
  intro ids
  induction ids with
  | nil => intro _; rfl
  | cons x rest ih =>
    intro h
    rw [List.flatMap_cons, List.filter_append,
      perClient_filter_ne hsnd hconn (h x (List.mem_cons_self _ _)),
      ih (fun y hy => h y (List.mem_cons_of_mem _ hy))]
    rfl

lemma flatMap_filter_once {st : SteamServerTransport} {server : RenetServer}
    {fails : ClientId → Payload → Bool} {id : ClientId} {conn : NetConnection}
    (hsnd : (st.connections.map Prod.snd).Nodup)
    (hconn : lookupConn id st.connections = some conn) :
    ∀ ids : List ClientId, ids.Nodup → id ∈ ids →
    (ids.flatMap (perClientMsgs st server fails)).filter
      (fun m => m.connection = conn) =
      buildMessages conn (fails id) (server.pending id) := by
  intro ids
  induction ids with
  | nil => intro _ hm; simp at hm
  | cons x rest ih =>
    intro hnd hm
    simp only [List.nodup_cons] at hnd
    rw [List.flatMap_cons, List.filter_append]
    rcases List.mem_cons.mp hm with rfl | hmr
    · rw [flatMap_filter_none hsnd hconn rest (fun y hy => fun hyx => hnd.1 (hyx ▸ hy))]
      rw [List.append_nil]
      unfold perClientMsgs
      rw [hconn, List.filter_eq_self.mpr]
      intro m hm
      simp [buildMessages_connection hm]
    · have hxne : x ≠ id := fun hxi => hnd.1 (hxi ▸ hmr)
      rw [perClient_filter_ne hsnd hconn hxne, ih hnd.2 hmr]
      rfl

/-! Claim theorems. -/

/-- C1: starting from any transport/server pair whose connection-table key set
agrees with the upstream registered-client set (as the post-constructor state
does), the two identity sets agree again immediately after each single event
processed by `update`, after a whole `update` call, after `disconnect_client`,
and after a non-panicking `disconnect_all`: additions and removals happen on
both sides in the same call. -/
theorem C1_table_matches_upstream (st : SteamServerTransport) (server : RenetServer)
    (h : Inv st server) :
    (∀ ev : ListenSocketEvent, ∀ id,
      id ∈ tableKeys (processEvent st server ev).1 ↔
        id ∈ (processEvent st server ev).2.1.clients) ∧
    (∀ (evs : List ListenSocketEvent) (ienv : IngressEnv), ∀ id,
      id ∈ tableKeys (update st server evs ienv).1 ↔
        id ∈ (update st server evs ienv).2.1.clients) ∧
    (∀ (client_id : ClientId) (flush : Bool), ∀ id,
      id ∈ tableKeys (disconnect_client st client_id server flush).1 ↔
        id ∈ (disconnect_client st client_id server flush).2.1.clients) ∧
    (∀ (flush : Bool) (r : SteamServerTransport × RenetServer × List Effect),
      disconnect_all st server flush = some r →
      ∀ id, id ∈ tableKeys r.1 ↔ id ∈ r.2.1.clients) := by
  refine ⟨?_, ?_, ?_, ?_⟩
  · intro ev id
    exact (Inv_processEvent ev h).2.2 id
  · intro evs ienv id
    exact (Inv_update evs ienv h).2.2 id
  · intro client_id flush id
    exact (Inv_disconnect_client client_id flush h).2.2 id
  · intro flush r hr id
    exact (Inv_disconnect_all h r hr).2.2 id

/-- Witness for C1 at the post-constructor state: after a `Connected` event for
identity 7, identity 7 is in the table iff it is registered upstream. -/
theorem C1_witness :
    7 ∈ tableKeys (processEvent (newTransport ⟨2, AccessPermission.Public⟩)
        ⟨[], fun _ => []⟩ (.Connected (some 7) ⟨1⟩)).1 ↔
      7 ∈ (processEvent (newTransport ⟨2, AccessPermission.Public⟩)
        ⟨[], fun _ => []⟩ (.Connected (some 7) ⟨1⟩)).2.1.clients :=
  (C1_table_matches_upstream (newTransport ⟨2, AccessPermission.Public⟩)
    ⟨[], fun _ => []⟩
    ⟨List.nodup_nil, List.nodup_nil, fun _ => Iff.rfl⟩).1
    (.Connected (some 7) ⟨1⟩) 7

/-- C2: for every `Connecting` event whose candidate asserts an identity and
that passes the capacity check, `update` issues an accept iff the active
policy permits the candidate, where the five policy shapes decide exactly as
the spec words them (`specAdmits`). -/
theorem C2_policy_decides (st : SteamServerTransport) (server : RenetServer)
    (sid : SteamId) (acceptFails : Bool) (env : SteamEnv)
    (hcap : connected_clients server < st.max_clients) :
    Effect.accept sid ∈
      (processEvent st server (.Connecting (some sid) acceptFails env)).2.2 ↔
      specAdmits env st.access_permission sid := by
  rw [← permitted_iff_specAdmits]
  simp only [processEvent]
  rw [if_neg (not_le.mpr hcap)]
  by_cases hp : permitted env st.access_permission sid
  · cases acceptFails <;> simp [hp]
  · simp only [Bool.not_eq_true] at hp
    simp [hp]

/-- Witness for C2: an empty Public server below capacity accepts candidate 5. -/
theorem C2_witness :
    Effect.accept 5 ∈
      (processEvent (newTransport ⟨1, AccessPermission.Public⟩) ⟨[], fun _ => []⟩
        (.Connecting (some 5) false ⟨fun _ => false, fun _ => []⟩)).2.2 ↔
      specAdmits ⟨fun _ => false, fun _ => []⟩ AccessPermission.Public 5 :=
  C2_policy_decides (newTransport ⟨1, AccessPermission.Public⟩) ⟨[], fun _ => []⟩
    5 false ⟨fun _ => false, fun _ => []⟩ (by decide)

/-- C5: the `Connecting` checks run in order — at capacity the candidate is
rejected with `AppGeneric`/"Too many clients" even when it lacks an identity;
below capacity a candidate without identity is rejected with
`AppGeneric`/"Invalid steam id"; below capacity a candidate with identity that
the policy denies is rejected with `AppGeneric`/"Not allowed". -/
theorem C5_reject_order (st : SteamServerTransport) (server : RenetServer)
    (steamId : Option SteamId) (acceptFails : Bool) (env : SteamEnv) :
    (connected_clients server ≥ st.max_clients →
      (processEvent st server (.Connecting steamId acceptFails env)).2.2 =
        [Effect.reject .AppGeneric (some ("Too many clients"))]) ∧
    (connected_clients server < st.max_clients → steamId = none →
      (processEvent st server (.Connecting steamId acceptFails env)).2.2 =
        [Effect.reject .AppGeneric (some ("Invalid steam id"))]) ∧
    (∀ sid, connected_clients server < st.max_clients → steamId = some sid →
      permitted env st.access_permission sid = false →
      (processEvent st server (.Connecting steamId acceptFails env)).2.2 =
        [Effect.reject .AppGeneric (some ("Not allowed"))]) := by
  refine ⟨?_, ?_, ?_⟩
  · intro hcap
    simp only [processEvent]
    rw [if_pos hcap]
  · intro hcap hid
    subst hid
    simp only [processEvent]
    rw [if_neg (not_le.mpr hcap)]
  · intro sid hcap hid hperm
    subst hid
    simp only [processEvent]
    rw [if_neg (not_le.mpr hcap)]
    simp [hperm]

/-- Witness for C5: concrete instances of the three reject paths (capacity
reject with no identity asserted, missing identity below capacity, and a
Private-policy denial). -/
theorem C5_witness :
    (processEvent (newTransport ⟨0, AccessPermission.Public⟩) ⟨[], fun _ => []⟩
      (.Connecting none true ⟨fun _ => false, fun _ => []⟩)).2.2 =
        [Effect.reject .AppGeneric (some ("Too many clients"))] ∧
    (processEvent (newTransport ⟨1, AccessPermission.Public⟩) ⟨[], fun _ => []⟩
      (.Connecting none true ⟨fun _ => false, fun _ => []⟩)).2.2 =
        [Effect.reject .AppGeneric (some ("Invalid steam id"))] ∧
    (processEvent (newTransport ⟨1, AccessPermission.Private⟩) ⟨[], fun _ => []⟩
      (.Connecting (some 3) true ⟨fun _ => false, fun _ => []⟩)).2.2 =
        [Effect.reject .AppGeneric (some ("Not allowed"))] :=
  ⟨(C5_reject_order (newTransport ⟨0, AccessPermission.Public⟩) ⟨[], fun _ => []⟩
      none true ⟨fun _ => false, fun _ => []⟩).1 (by decide),
   (C5_reject_order (newTransport ⟨1, AccessPermission.Public⟩) ⟨[], fun _ => []⟩
      none true ⟨fun _ => false, fun _ => []⟩).2.1 (by decide) rfl,
   (C5_reject_order (newTransport ⟨1, AccessPermission.Private⟩) ⟨[], fun _ => []⟩
      (some 3) true ⟨fun _ => false, fun _ => []⟩).2.2 3 (by decide) rfl rfl⟩

/-- C9: `set_access_permissions` changes only the access-policy field — the
connection table, `max_clients` and the batch buffer are untouched, so no
existing client is evicted even when the new policy is `Private`; only later
admission decisions see the new policy. -/
theorem C9_policy_swap_frame (st : SteamServerTransport) (ap : AccessPermission) :
    (set_access_permissions st ap).access_permission = ap ∧
    (set_access_permissions st ap).connections = st.connections ∧
    (set_access_permissions st ap).max_clients = st.max_clients ∧
    (set_access_permissions st ap).messages = st.messages :=
  ⟨rfl, rfl, rfl, rfl⟩

/-- C10: for an identity with no table entry, `disconnect_client` closes no
handle and leaves the transport unchanged, yet still calls
`server.remove_connection` upstream unconditionally. -/
theorem C10_disconnect_absent (st : SteamServerTransport) (client_id : ClientId)
    (server : RenetServer) (flush : Bool)
    (habs : lookupConn client_id st.connections = none) :
    disconnect_client st client_id server flush =
      (st, remove_connection server client_id, []) := by
  unfold disconnect_client
  rw [habs]

/-- Witness for C10: disconnecting id 9 from an empty table closes nothing and
still deregisters 9 upstream. -/
theorem C10_witness :
    disconnect_client (newTransport ⟨2, AccessPermission.Public⟩) 9
        ⟨[9], fun _ => []⟩ true =
      (newTransport ⟨2, AccessPermission.Public⟩,
        remove_connection ⟨[9], fun _ => []⟩ 9, []) :=
  C10_disconnect_absent (newTransport ⟨2, AccessPermission.Public⟩) 9
    ⟨[9], fun _ => []⟩ true rfl

/-- C3 counterexample: with `max_clients = 1`, two `Connecting` events drained
in the same `update` both pass the capacity check (the upstream count is still
0), both are accepted, and the two subsequent `Connected` events leave the
connection table with 2 > 1 entries — the table size does exceed
`max_clients`, refuting the claim's first part on a well-formed event
sequence (every `Connected` follows an issued accept). -/
theorem C3_counterexample :
    1 <
      ((update (newTransport ⟨1, AccessPermission.Public⟩) ⟨[], fun _ => []⟩
        [.Connecting (some 1) false ⟨fun _ => false, fun _ => []⟩,
         .Connecting (some 2) false ⟨fun _ => false, fun _ => []⟩,
         .Connected (some 1) ⟨10⟩,
         .Connected (some 2) ⟨11⟩]
        ⟨fun _ => none, fun _ _ => none⟩).1.connections.length) ∧
    (update (newTransport ⟨1, AccessPermission.Public⟩) ⟨[], fun _ => []⟩
        [.Connecting (some 1) false ⟨fun _ => false, fun _ => []⟩,
         .Connecting (some 2) false ⟨fun _ => false, fun _ => []⟩,
         .Connected (some 1) ⟨10⟩,
         .Connected (some 2) ⟨11⟩]
        ⟨fun _ => none, fun _ _ => none⟩).1.max_clients = 1 ∧
    Effect.accept 1 ∈
      (update (newTransport ⟨1, AccessPermission.Public⟩) ⟨[], fun _ => []⟩
        [.Connecting (some 1) false ⟨fun _ => false, fun _ => []⟩,
         .Connecting (some 2) false ⟨fun _ => false, fun _ => []⟩,
         .Connected (some 1) ⟨10⟩,
         .Connected (some 2) ⟨11⟩]
        ⟨fun _ => none, fun _ _ => none⟩).2.2 ∧
    Effect.accept 2 ∈
      (update (newTransport ⟨1, AccessPermission.Public⟩) ⟨[], fun _ => []⟩
        [.Connecting (some 1) false ⟨fun _ => false, fun _ => []⟩,
         .Connecting (some 2) false ⟨fun _ => false, fun _ => []⟩,
         .Connected (some 1) ⟨10⟩,
         .Connected (some 2) ⟨11⟩]
        ⟨fun _ => none, fun _ _ => none⟩).2.2 := by
  refine ⟨?_, rfl, ?_, ?_⟩ <;> decide

/-- C3 (amended): at the moment any accept decision is issued while `update`
drains its event queue — i.e. at the intermediate state reached after any
prefix of the events, starting from a consistent state — the connection-table
size is strictly below `max_clients`; the bound is enforced at admission time
only, and the table can exceed `max_clients` once accepted candidates complete
their connections. -/
theorem C3_capacity_at_accept (st : SteamServerTransport) (server : RenetServer)
    (evs : List ListenSocketEvent) (i : Nat) (hlt : i < evs.length)
    (hinv : Inv st server) (sid : SteamId)
    (hacc : Effect.accept sid ∈
      (processEvent (processEvents st server (evs.take i)).1
        (processEvents st server (evs.take i)).2.1 (evs.get ⟨i, hlt⟩)).2.2) :
    (processEvents st server (evs.take i)).1.connections.length < st.max_clients := by
  have hinv' := Inv_processEvents (evs.take i) hinv
  have hcap := accept_mem_cap hacc
  rw [maxClients_processEvents] at hcap
  calc (processEvents st server (evs.take i)).1.connections.length
      = (tableKeys (processEvents st server (evs.take i)).1).length :=
        (List.length_map _ _).symm
    _ = connected_clients (processEvents st server (evs.take i)).2.1 :=
        length_eq_of_Inv hinv'
    _ < st.max_clients := hcap

/-- Witness for the amended C3: at the first event of a Public queue on an
empty consistent pair, an accept for candidate 5 is issued while the table
size 0 is below `max_clients = 1`. -/
theorem C3_capacity_at_accept_witness :
    (processEvents (newTransport ⟨1, AccessPermission.Public⟩) ⟨[], fun _ => []⟩
      (([.Connecting (some 5) false ⟨fun _ => false, fun _ => []⟩] :
        List ListenSocketEvent).take 0)).1.connections.length <
      (newTransport ⟨1, AccessPermission.Public⟩).max_clients :=
  C3_capacity_at_accept (newTransport ⟨1, AccessPermission.Public⟩)
    ⟨[], fun _ => []⟩
    [.Connecting (some 5) false ⟨fun _ => false, fun _ => []⟩] 0 (by decide)
    ⟨List.nodup_nil, List.nodup_nil, fun _ => Iff.rfl⟩ 5 (by decide)

/-- C4: the partial points of the public surface are the two `unwrap`s — on
`get_packets_to_send` in `send_packets` and on `remove_entry` in
`disconnect_all`.  Under the upstream contract (ids enumerated by
`clients_id` are registered, so `get_packets_to_send` succeeds for them) and
a well-formed table, both always return a value; every other public operation
is a total function of the model, and accept/`set_data`/close failures are
absorbed as log lines, denied admissions, or dropped packets. -/
theorem C4_no_panic (st : SteamServerTransport) (server : RenetServer)
    (fails : ClientId → Payload → Bool) (flush : Bool) (hwf : TableWF st) :
    (send_packets st server fails).isSome ∧ (disconnect_all st server flush).isSome := by
  constructor
  · rw [send_packets_eq]
    rfl
  · obtain ⟨r, hr, _⟩ := disconnect_all_spec hwf
    rw [hr]
    rfl

/-- Witness for C4 on a one-client state. -/
theorem C4_witness :
    (send_packets
      { max_clients := 2, access_permission := AccessPermission.Public,
        connections := [(1, ⟨5⟩)], messages := [] }
      ⟨[1], fun _ => [[0]]⟩ (fun _ _ => false)).isSome ∧
    (disconnect_all
      { max_clients := 2, access_permission := AccessPermission.Public,
        connections := [(1, ⟨5⟩)], messages := [] }
      ⟨[1], fun _ => [[0]]⟩ true).isSome :=
  C4_no_panic
    { max_clients := 2, access_permission := AccessPermission.Public,
      connections := [(1, ⟨5⟩)], messages := [] }
    ⟨[1], fun _ => [[0]]⟩ (fun _ _ => false) true (by unfold TableWF; decide)

/-- C7: the outbound batch buffer is empty at the start of every public call
(every reachable transport state has an empty buffer) and empty again when
`send_packets` returns, regardless of how many payloads were queued and of
`set_data` failures; the accumulated batch is drained in one step at the end. -/
theorem C7_buffer_empty :
    (∀ st : SteamServerTransport, Reachable st → st.messages = []) ∧
    (∀ (st : SteamServerTransport) (server : RenetServer)
      (fails : ClientId → Payload → Bool)
      (r : SteamServerTransport × List NetworkingMessage),
      send_packets st server fails = some r → r.1.messages = []) :=
  ⟨fun _ h => Reachable_messages h, fun _ _ _ _ hr => messages_send_packets hr⟩

/-- Witness for C7: the post-constructor state has an empty buffer, and a
concrete `send_packets` run exits with an empty buffer. -/
theorem C7_witness :
    (newTransport ⟨4, AccessPermission.Public⟩).messages = [] ∧
    ({ newTransport ⟨4, AccessPermission.Public⟩ with
        messages := ([] : List NetworkingMessage) }).messages = [] :=
  ⟨C7_buffer_empty.1 (newTransport ⟨4, AccessPermission.Public⟩)
      (Reachable.ctor ⟨4, AccessPermission.Public⟩),
   C7_buffer_empty.2 (newTransport ⟨4, AccessPermission.Public⟩)
      ⟨[], fun _ => []⟩ (fun _ _ => false)
      ({ newTransport ⟨4, AccessPermission.Public⟩ with
          messages := ([] : List NetworkingMessage) }, []) (by decide)⟩

/-- C8: for an identity present in the table, `disconnect_client` removes its
entry, closes its handle with `AppGeneric`, farewell "Client was kicked" and
the given flush flag, and calls `remove_connection` upstream; `disconnect_all`
performs that operation for every entry of the table. -/
theorem C8_disconnect_semantics (st : SteamServerTransport) (client_id : ClientId)
    (server : RenetServer) (flush : Bool) (conn : NetConnection)
    (hconn : lookupConn client_id st.connections = some conn) (hwf : TableWF st) :
    disconnect_client st client_id server flush =
      ({ st with connections := removeConn st.connections client_id },
        remove_connection server client_id,
        [Effect.close conn .AppGeneric (some ("Client was kicked")) flush]) ∧
    ∃ r, disconnect_all st server flush = some r ∧
      r.1.connections = [] ∧
      r.2.1.clients = server.clients.filter (fun x => ¬ x ∈ tableKeys st) ∧
      ∀ p ∈ st.connections,
        Effect.close p.2 .AppGeneric (some ("Client was kicked")) flush ∈ r.2.2 := by
  constructor
  · unfold disconnect_client
    rw [hconn]
  · obtain ⟨r, hr, hc, _, _, _, hcl, _, heff⟩ := disconnect_all_spec hwf
    exact ⟨r, hr, hc, hcl, heff⟩

/-- Witness for C8 on a table holding client 42. -/
theorem C8_witness :
    disconnect_client
        { max_clients := 2, access_permission := AccessPermission.Public,
          connections := [(42, ⟨7⟩)], messages := [] } 42 ⟨[42], fun _ => []⟩ true =
      ({ max_clients := 2, access_permission := AccessPermission.Public,
          connections := removeConn [(42, ⟨7⟩)] 42, messages := [] },
        remove_connection ⟨[42], fun _ => []⟩ 42,
        [Effect.close ⟨7⟩ .AppGeneric (some ("Client was kicked")) true]) ∧
    ∃ r, disconnect_all
        { max_clients := 2, access_permission := AccessPermission.Public,
          connections := [(42, ⟨7⟩)], messages := [] } ⟨[42], fun _ => []⟩ true = some r ∧
      r.1.connections = [] ∧
      r.2.1.clients = ([42] : List ClientId).filter (fun x => ¬ x ∈ tableKeys
        { max_clients := 2, access_permission := AccessPermission.Public,
          connections := [(42, ⟨7⟩)], messages := [] }) ∧
      ∀ p ∈ ([(42, (⟨7⟩ : NetConnection))] : List (ClientId × NetConnection)),
        Effect.close p.2 .AppGeneric (some ("Client was kicked")) true ∈ r.2.2 :=
  C8_disconnect_semantics
    { max_clients := 2, access_permission := AccessPermission.Public,
      connections := [(42, ⟨7⟩)], messages := [] } 42 ⟨[42], fun _ => []⟩ true ⟨7⟩
    rfl (by unfold TableWF; decide)

/-- C6: in one `send_packets` call, for a client whose table entry exists and
for which every `set_data` succeeds, the dispatched batch contains — among the
messages carrying that client's connection handle — exactly one SDK message
per payload returned by `get_packets_to_send`, in the upstream's order, each
with send-flags `UNRELIABLE_NO_NAGLE` and that client's handle attached
(handles are pairwise distinct, as SDK connection handles are). -/
theorem C6_one_message_per_payload (st : SteamServerTransport) (server : RenetServer)
    (fails : ClientId → Payload → Bool) (id : ClientId) (conn : NetConnection)
    (packets : List Payload)
    (hbuf : st.messages = [])
    (hconn : lookupConn id st.connections = some conn)
    (hpkts : get_packets_to_send server id = some packets)
    (hnd : server.clients.Nodup)
    (hsnd : (st.connections.map Prod.snd).Nodup)
    (hok : ∀ p ∈ packets, fails id p = false) :
    ∃ st' batch, send_packets st server fails = some (st', batch) ∧
      batch.filter (fun m => m.connection = conn) =
        packets.map (fun p =>
          { connection := conn, send_flags := UNRELIABLE_NO_NAGLE, data := p }) := by
  have hmem : id ∈ server.clients := by
    by_contra hn
    simp [get_packets_to_send, hn] at hpkts
  have hpend : packets = server.pending id := by
    simp only [get_packets_to_send, if_pos hmem, Option.some.injEq] at hpkts
    exact hpkts.symm
  refine ⟨{ st with messages := [] },
    st.messages ++ server.clients.flatMap (perClientMsgs st server fails),
    send_packets_eq st server fails, ?_⟩
  rw [hbuf, List.nil_append,
    flatMap_filter_once hsnd hconn server.clients hnd hmem,
    ← hpend]
  exact buildMessages_no_fail hok

/-- Witness for C6: one client (id 1, handle 5) with two queued payloads and
no `set_data` failures yields exactly those two messages, in order, flagged
`UNRELIABLE_NO_NAGLE` on handle 5. -/
theorem C6_witness :
    ∃ st' batch, send_packets
        { max_clients := 2, access_permission := AccessPermission.Public,
          connections := [(1, ⟨5⟩)], messages := [] }
        ⟨[1], fun _ => [[0, 1], [2]]⟩ (fun _ _ => false) = some (st', batch) ∧
      batch.filter (fun m => m.connection = (⟨5⟩ : NetConnection)) =
        ([[0, 1], [2]] : List Payload).map (fun p =>
          { connection := ⟨5⟩, send_flags := UNRELIABLE_NO_NAGLE, data := p }) :=
  C6_one_message_per_payload
    { max_clients := 2, access_permission := AccessPermission.Public,
      connections := [(1, ⟨5⟩)], messages := [] }
    ⟨[1], fun _ => [[0, 1], [2]]⟩ (fun _ _ => false) 1 ⟨5⟩ [[0, 1], [2]]
    rfl rfl rfl (by decide) (by decide) (by decide)

end RenetSteam
